import Mathlib

/-!
Verification of the multicast delegate registry (InterstingCppStuffs).

The registry (class Delegate) stores an ordered vector of pointers to
callable objects (field callable_ptrs).  A pointer (shared_ptr in one
variant, raw pointer in the other) is an opaque identity: each registration
creates a fresh pointer, and pointer equality is identity equality, never
structural equality of the wrapped function.  We model a pointer as a Nat
and the heap of callable objects as an environment mapping each pointer to
the behaviour of its wrapped function.  A callable may have side effects,
so the environment maps a pointer and an argument to a state transformer
returning the result and the next state; the pure case is recovered by
threading a trivial state.

The mutex only serializes operations; each operation below is the effect of
one locked critical section, so the sequential semantics is a pure function
on the entry list.

The corpus holds two variants of the class.  The shared_ptr variant
(InterstingDelegate.hpp, first document) removes by a reverse scan with the
return inside the match and collects Execute results into a vector.  The
raw-pointer variant (second document of the same header) and the
src/unnamed/part_000 variant place the return of operator-= outside the
if, and the raw-pointer variant aggregates Execute results by overwriting
a single local.  Both behaviours are embedded side by side.
-/

/-- A pointer to a callable object, modelled as an opaque identity.
Pointer equality (the == of shared_ptr or of a raw pointer) is equality
of these identities. -/
abbrev CallablePtr := Nat

/-- The registry state: the ordered vector callable_ptrs of the C++ class
Delegate.  The mutex member is not part of the observable state. -/
structure Delegate where
  callable_ptrs : List CallablePtr
  deriving DecidableEq

/-- The loop body of the value-collecting Execute
(InterstingDelegate.hpp lines 99-107, part_000 lines 136-144):
results starts empty and each callable in order appends its return value;
the state thread sigma carries the side effects of the callables. -/
def runCalls {α β σ : Type} (env : CallablePtr → α → σ → β × σ)
    (l : List CallablePtr) (x : α) (s : σ) : List β × σ :=
  match l with
  | [] => ([], s)
  | f :: rest =>
      let r := env f x s
      let t := runCalls env rest x r.2
      (r.1 :: t.1, t.2)

/-- The loop body of the raw-pointer variant Execute
(InterstingDelegate.hpp lines 322-330): a single local res is overwritten
by each call in order and returned at the end; res is the value of the
uninitialized local ReturnType res when the list is empty. -/
def runCallsLast {α β σ : Type} (env : CallablePtr → α → σ → β × σ)
    (l : List CallablePtr) (x : α) (res : β) (s : σ) : β × σ :=
  match l with
  | [] => (res, s)
  | f :: rest =>
      let r := env f x s
      runCallsLast env rest x r.1 r.2

/-- The loop body of the raw-pointer variant call operator
(InterstingDelegate.hpp lines 332-340), which duplicates the Execute loop
textually instead of delegating to it; embedded as its own recursion to
mirror that duplication. -/
def runCallsLastDup {α β σ : Type} (env : CallablePtr → α → σ → β × σ)
    (l : List CallablePtr) (x : α) (res : β) (s : σ) : β × σ :=
  match l with
  | [] => (res, s)
  | f :: rest =>
      let r := env f x s
      runCallsLastDup env rest x r.1 r.2

/-- The loop body of the void-specialized Execute
(InterstingDelegate.hpp lines 174-179, part_000 lines 225-230): every
callable is invoked in order purely for effect. -/
def runCallsVoid {α σ : Type} (env : CallablePtr → α → σ → σ)
    (l : List CallablePtr) (x : α) (s : σ) : σ :=
  match l with
  | [] => s
  | f :: rest => runCallsVoid env rest x (env f x s)

namespace Delegate

/-- operator+=(const callable_ptr&) (hpp lines 50-55, part_000 lines 72-77):
under the lock, push_back the pointer. -/
def addCallable (d : Delegate) (f : CallablePtr) : Delegate :=
  ⟨d.callable_ptrs ++ [f]⟩

/-- operator-=(const callable_ptr&) of the shared_ptr variant
(hpp lines 57-68): iterate from rbegin to rend and, at the first element
equal to f, erase it and return.  Scanning the reversed vector and erasing
the first match is exactly reversing, erasing the first occurrence, and
reversing back. -/
def removeCallable (d : Delegate) (f : CallablePtr) : Delegate :=
  ⟨(d.callable_ptrs.reverse.erase f).reverse⟩

/-- operator-=(const callable_ptr&) of the part_000 and raw-pointer
variants (part_000 lines 79-88, hpp lines 263-272): the return statement
sits outside the if, so the loop body runs at most once.  Only the element
at rbegin (the last element) is examined: it is erased when equal to f,
and in every case the function returns after the first iteration. -/
def removeCallableP0 (d : Delegate) (f : CallablePtr) : Delegate :=
  match d.callable_ptrs.reverse with
  | [] => d
  | x :: rest => if x = f then ⟨rest.reverse⟩ else d

/-- operator+=(const Delegate&) (hpp lines 86-91, part_000 lines 121-126):
for each pointer of the other registry in forward order, one single-pointer
add against self. -/
def addDelegate (d other : Delegate) : Delegate :=
  other.callable_ptrs.foldl (fun acc f => acc.addCallable f) d

/-- operator-=(const Delegate&) (hpp lines 93-97, part_000 lines 128-134):
for each pointer of the other registry in forward order, one single-pointer
remove against self. -/
def removeDelegate (d other : Delegate) : Delegate :=
  other.callable_ptrs.foldl (fun acc f => acc.removeCallable f) d

/-- The move constructor Delegate(const Delegate&&) (hpp lines 295-298,
part_000 lines 111-114): the new registry is initialized from the source
vector callable_ptrs and the source vector is then cleared.  This embeds
the evident intended semantics of the written body; as written the body is
ill-formed when instantiated, because it invokes the non-const member
ClearCallablePtrs (and, in the raw-pointer variant, the non-const
GetCallablePtrs) on the const-qualified parameter.  The first component is
the newly constructed registry, the second the source afterwards. -/
def moveConstruct (b : Delegate) : Delegate × Delegate :=
  (⟨b.callable_ptrs⟩, ⟨[]⟩)

/-- Execute of the value-collecting variant (hpp lines 99-107, part_000
lines 136-144): under the lock, call every current entry in order and
collect the results into a vector. -/
def Execute {α β σ : Type} (env : CallablePtr → α → σ → β × σ)
    (d : Delegate) (x : α) (s : σ) : List β × σ :=
  runCalls env d.callable_ptrs x s

/-- Execute of the raw-pointer variant (hpp lines 322-330): a local res,
default-initialized to the indeterminate value res0, is overwritten by
each call in order and returned. -/
def ExecuteLast {α β σ : Type} (env : CallablePtr → α → σ → β × σ)
    (d : Delegate) (x : α) (res0 : β) (s : σ) : β × σ :=
  runCallsLast env d.callable_ptrs x res0 s

/-- Execute of the void specialization (hpp lines 174-179, part_000 lines
225-230): call every current entry in order for effect only. -/
def ExecuteVoid {α σ : Type} (env : CallablePtr → α → σ → σ)
    (d : Delegate) (x : α) (s : σ) : σ :=
  runCallsVoid env d.callable_ptrs x s

/-- operator() of the value-collecting variant (hpp lines 109-112,
part_000 lines 146-149): return Execute(args...). -/
def callOp {α β σ : Type} (env : CallablePtr → α → σ → β × σ)
    (d : Delegate) (x : α) (s : σ) : List β × σ :=
  d.Execute env x s

/-- operator() of the void specialization (hpp lines 181-184, part_000
lines 232-235): Execute(args...). -/
def callOpVoid {α σ : Type} (env : CallablePtr → α → σ → σ)
    (d : Delegate) (x : α) (s : σ) : σ :=
  d.ExecuteVoid env x s

/-- operator() of the raw-pointer variant (hpp lines 332-340): repeats the
Execute loop textually instead of delegating, via runCallsLastDup. -/
def callOpLast {α β σ : Type} (env : CallablePtr → α → σ → β × σ)
    (d : Delegate) (x : α) (res0 : β) (s : σ) : β × σ :=
  runCallsLastDup env d.callable_ptrs x res0 s

/-- The member state of the registry after a value-collecting Execute:
the body (hpp lines 99-107) reads callable_ptrs and writes only the local
results, so the member vector after the call is the one before it.  The
pair is (the result of the call, the member state afterwards). -/
def ExecuteFull {α β σ : Type} (env : CallablePtr → α → σ → β × σ)
    (d : Delegate) (x : α) (s : σ) : (List β × σ) × Delegate :=
  (d.Execute env x s, ⟨d.callable_ptrs⟩)

/-- The member state of the registry after a void Execute (hpp lines
174-179): the body only reads callable_ptrs. -/
def ExecuteVoidFull {α σ : Type} (env : CallablePtr → α → σ → σ)
    (d : Delegate) (x : α) (s : σ) : σ × Delegate :=
  (d.ExecuteVoid env x s, ⟨d.callable_ptrs⟩)

/-- The member state of the registry after the raw-pointer Execute (hpp
lines 322-330): the body reads callable_ptrs and writes only the local
res. -/
def ExecuteLastFull {α β σ : Type} (env : CallablePtr → α → σ → β × σ)
    (d : Delegate) (x : α) (res0 : β) (s : σ) : (β × σ) × Delegate :=
  (d.ExecuteLast env x res0 s, ⟨d.callable_ptrs⟩)

/-- The member state of the registry after operator() of the
value-collecting variant (hpp lines 109-112): it forwards to Execute,
which only reads callable_ptrs. -/
def callOpFull {α β σ : Type} (env : CallablePtr → α → σ → β × σ)
    (d : Delegate) (x : α) (s : σ) : (List β × σ) × Delegate :=
  (d.callOp env x s, ⟨d.callable_ptrs⟩)

/-- The member state of the registry after operator() of the void
specialization (hpp lines 181-184). -/
def callOpVoidFull {α σ : Type} (env : CallablePtr → α → σ → σ)
    (d : Delegate) (x : α) (s : σ) : σ × Delegate :=
  (d.callOpVoid env x s, ⟨d.callable_ptrs⟩)

end Delegate

/-- An instrumented heap: every pointer p wraps the pure function fn p,
and each call appends p to a log, recording which entry was called and in
which order. -/
def logEnv {α β : Type} (fn : CallablePtr → α → β) :
    CallablePtr → α → List CallablePtr → β × List CallablePtr :=
  fun p x log => (fn p x, log ++ [p])

/-! ## Helper lemmas -/

theorem runCalls_logEnv {α β : Type} (fn : CallablePtr → α → β) :
    ∀ (l : List CallablePtr) (x : α) (log : List CallablePtr),
      runCalls (logEnv fn) l x log = (l.map (fun p => fn p x), log ++ l)
  | [], _, log => by simp [runCalls]
  | f :: rest, x, log => by
    simp [runCalls, logEnv, runCalls_logEnv fn rest x (log ++ [f])]

theorem runCallsLast_logEnv {α β : Type} (fn : CallablePtr → α → β) :
    ∀ (l : List CallablePtr) (x : α) (r : β) (log : List CallablePtr),
      runCallsLast (logEnv fn) l x r log
        = ((l.map (fun p => fn p x)).getLastD r, log ++ l)
  | [], _, r, log => by simp [runCallsLast]
  | f :: rest, x, r, log => by
    have ih := runCallsLast_logEnv fn rest x (fn f x) (log ++ [f])
    simp only [runCallsLast, logEnv] at ih ⊢
    rw [ih, List.map_cons, List.getLastD_cons, List.append_assoc, List.singleton_append]

theorem runCallsLastDup_eq_runCallsLast {α β σ : Type}
    (env : CallablePtr → α → σ → β × σ) :
    ∀ (l : List CallablePtr) (x : α) (r : β) (s : σ),
      runCallsLastDup env l x r s = runCallsLast env l x r s
  | [], _, _, _ => rfl
  | f :: rest, x, r, s => by
    simp [runCallsLastDup, runCallsLast,
      runCallsLastDup_eq_runCallsLast env rest x (env f x s).1 (env f x s).2]

theorem foldl_addCallable_eq_append :
    ∀ (l : List CallablePtr) (d : Delegate),
      (List.foldl (fun acc f => Delegate.addCallable acc f) d l).callable_ptrs
        = d.callable_ptrs ++ l
  | [], d => by simp
  | f :: rest, d => by
    have ih := foldl_addCallable_eq_append rest (d.addCallable f)
    simp only [List.foldl_cons]
    rw [ih]
    simp [Delegate.addCallable, List.append_assoc]

theorem count_removeCallable (d : Delegate) (f p : CallablePtr) :
    (d.removeCallable f).callable_ptrs.count p
      = d.callable_ptrs.count p - if f = p then 1 else 0 := by
  simp [Delegate.removeCallable, List.count_erase]

theorem count_foldl_removeCallable :
    ∀ (l : List CallablePtr) (d : Delegate) (p : CallablePtr),
      (List.foldl (fun acc f => Delegate.removeCallable acc f) d l).callable_ptrs.count p
        = d.callable_ptrs.count p - l.count p
  | [], d, p => by simp
  | f :: rest, d, p => by
    rw [List.foldl, count_foldl_removeCallable rest (d.removeCallable f) p,
      count_removeCallable, List.count_cons]
    by_cases h : f = p
    all_goals simp [h]
    all_goals omega

/-! ## Concrete heaps used by counterexamples -/

/-- A concrete pure heap for a two-entry registry: pointer 1 wraps a
function returning 10, every other pointer one returning 20. -/
def envTenTwenty : CallablePtr → Nat → Unit → Nat × Unit :=
  fun p _ s => (if p = 1 then 10 else 20, s)

/-- A second concrete pure heap agreeing with envTenTwenty on every pointer
except pointer 1, whose function returns 99 instead of 10. -/
def envNinetyNineTwenty : CallablePtr → Nat → Unit → Nat × Unit :=
  fun p _ s => (if p = 1 then 99 else 20, s)

/-- A trivial pure heap where every callable returns 0. -/
def envZero : CallablePtr → Nat → Unit → Nat × Unit :=
  fun _ _ s => (0, s)

/-! ## Claims -/

/-- C1, counterexample.  In the raw-pointer variant (hpp lines 322-330) the
invocation result is not an ordered sequence whose i-th element is the
return value of the i-th entry: on the registry [1, 2] two heaps that
differ in the return value of the first entry (10 against 99) produce the
identical result 20, so the return value of the first entry does not occur
in the result at all. -/
theorem executeLast_drops_first_result :
    (Delegate.ExecuteLast envTenTwenty ⟨[1, 2]⟩ 0 0 ()).1 = 20
    ∧ (Delegate.ExecuteLast envNinetyNineTwenty ⟨[1, 2]⟩ 0 0 ()).1 = 20
    ∧ (envTenTwenty 1 0 ()).1 ≠ (envNinetyNineTwenty 1 0 ()).1 := by
  decide

/-- C1, amended.  Invocation calls each entry exactly once in insertion
order (the instrumented log equals callable_ptrs) in both variants; the
value-collecting Execute (hpp lines 99-107, part_000 lines 136-144)
returns the ordered sequence whose i-th element is the return value of the
i-th entry, of length equal to the number of entries; the raw-pointer
Execute (hpp lines 322-330) instead returns only the return value of the
last entry, or the indeterminate initial value r0 when the registry is
empty. -/
theorem execute_order_and_aggregation {α β : Type} (fn : CallablePtr → α → β)
    (d : Delegate) (x : α) (r0 : β) :
    (Delegate.Execute (logEnv fn) d x []).1 = d.callable_ptrs.map (fun p => fn p x)
    ∧ (Delegate.Execute (logEnv fn) d x []).1.length = d.callable_ptrs.length
    ∧ (Delegate.Execute (logEnv fn) d x []).2 = d.callable_ptrs
    ∧ (Delegate.ExecuteLast (logEnv fn) d x r0 []).2 = d.callable_ptrs
    ∧ (Delegate.ExecuteLast (logEnv fn) d x r0 []).1
        = (d.callable_ptrs.map (fun p => fn p x)).getLastD r0 := by
  have h1 := runCalls_logEnv fn d.callable_ptrs x []
  have h2 := runCallsLast_logEnv fn d.callable_ptrs x r0 []
  simp [Delegate.Execute, Delegate.ExecuteLast, h1, h2]

/-- C2, code bug.  On the registry [1, 1, 2] with target 1, the part_000
operator-= (lines 79-88), whose return sits outside the if, examines only
the last element 2 and removes nothing, while the claimed behaviour
(implemented by the shared_ptr variant, hpp lines 57-68) removes the most
recently inserted matching entry, leaving [1, 2]. -/
theorem removeP0_checks_only_last_entry :
    Delegate.removeCallableP0 ⟨[1, 1, 2]⟩ 1 = ⟨[1, 1, 2]⟩
    ∧ Delegate.removeCallable ⟨[1, 1, 2]⟩ 1 = ⟨[1, 2]⟩ := by
  decide

/-- C3, counterexample.  In the raw-pointer variant (hpp lines 322-330)
invoking an empty registry returns the uninitialized local res, so no
single value is the result for every possible indeterminate initial value:
the empty invocation does not return an empty ordered sequence (nor any
well-defined value). -/
theorem executeLast_empty_result_indeterminate :
    ¬ ∃ v : Nat, ∀ r0 : Nat, (Delegate.ExecuteLast envZero ⟨[]⟩ 0 r0 ()).1 = v := by
  rintro ⟨v, h⟩
  have h0 := h 0
  have h1 := h 1
  simp [Delegate.ExecuteLast, runCallsLast] at h0 h1
  omega

/-- C3, amended.  Invoking an empty registry performs no listener calls in
every variant; the value-collecting Execute returns the empty ordered
sequence with the state untouched, the void Execute leaves the state
untouched, and the raw-pointer Execute returns its indeterminate
uninitialized local r0. -/
theorem empty_invoke_results {α β σ : Type}
    (env : CallablePtr → α → σ → β × σ) (envv : CallablePtr → α → σ → σ)
    (x : α) (r0 : β) (s : σ) :
    Delegate.Execute env ⟨[]⟩ x s = ([], s)
    ∧ Delegate.ExecuteVoid envv ⟨[]⟩ x s = s
    ∧ Delegate.ExecuteLast env ⟨[]⟩ x r0 s = (r0, s) :=
  ⟨rfl, rfl, rfl⟩

/-- C4.  Merging registry b into registry a (operator+= on a whole
registry, hpp lines 86-91, part_000 lines 121-126) appends, in the forward
order of b, one copy of each pointer of b: the resulting sequence is
exactly the pre-existing sequence of a followed by the sequence of b, so
the entries of a and their order are preserved; b, read through its
const accessor, is not written. -/
theorem addDelegate_appends_in_order (a b : Delegate) :
    (a.addDelegate b).callable_ptrs = a.callable_ptrs ++ b.callable_ptrs :=
  foldl_addCallable_eq_append b.callable_ptrs a

/-- C5.  Removal by registry (operator-= on a whole registry, hpp lines
93-97, part_000 lines 128-134) performs one single-pointer remove against
a for each pointer of b in forward order, so for every pointer p the
number of occurrences of p left in a is the count in a minus the count in
b (truncated): each entry of b removes at most one matching entry of a.
Matching is identity of the pointer, not structural equality of the
wrapped function: in a heap where pointers 1 and 2 wrap the same function,
removing registry [2] from registry [1, 2] leaves [1]. -/
theorem removeDelegate_removes_one_per_entry (a b : Delegate) (p : CallablePtr) :
    (a.removeDelegate b).callable_ptrs.count p
      = a.callable_ptrs.count p - b.callable_ptrs.count p
    ∧ (Delegate.removeDelegate ⟨[1, 2]⟩ ⟨[2]⟩).callable_ptrs = [1] := by
  refine ⟨count_foldl_removeCallable b.callable_ptrs a p, by decide⟩

/-- C6, code bug.  The intended semantics of the move constructor (hpp
lines 295-298, part_000 lines 111-114) transfers the whole sequence: the
constructed registry holds exactly the pre-transfer sequence of the
source, the source is left empty, and the emptied source remains usable
(a subsequent add works).  As written, however, the constructor body is
ill-formed whenever it is instantiated, because it calls the non-const
member ClearCallablePtrs (and, in the raw-pointer variant, the non-const
GetCallablePtrs) on the const-qualified parameter, so a program cannot
actually perform the move-transfer. -/
theorem moveConstruct_transfers_and_empties (b : Delegate) (f : CallablePtr) :
    b.moveConstruct.1.callable_ptrs = b.callable_ptrs
    ∧ b.moveConstruct.2.callable_ptrs = []
    ∧ (b.moveConstruct.2.addCallable f).callable_ptrs = [f] :=
  ⟨rfl, rfl, rfl⟩

/-- C7.  Adding a pointer and then removing that same pointer restores the
registry exactly, in the shared_ptr variant of remove (hpp lines 57-68)
and even in the part_000 variant (lines 79-88), since the entry just
appended is the last element, the one place both variants examine first;
this holds for every prior state, including states already containing
duplicates of the pointer. -/
theorem add_then_remove_restores (d : Delegate) (f : CallablePtr) :
    (d.addCallable f).removeCallable f = d
    ∧ (d.addCallable f).removeCallableP0 f = d := by
  constructor
  · simp [Delegate.addCallable, Delegate.removeCallable]
  · have h : (d.callable_ptrs ++ [f]).reverse = f :: d.callable_ptrs.reverse := by
      simp
    simp [Delegate.addCallable, Delegate.removeCallableP0, h]

/-- C8.  Removing a pointer that occurs nowhere in the sequence is a
silent no-op in both variants of operator-= (hpp lines 57-68, part_000
lines 79-88): no error is reported (the operation is total) and the
sequence is left entirely unchanged. -/
theorem remove_absent_is_noop (d : Delegate) (f : CallablePtr)
    (h : f ∉ d.callable_ptrs) :
    d.removeCallable f = d ∧ d.removeCallableP0 f = d := by
  constructor
  · have h2 : f ∉ d.callable_ptrs.reverse := by simpa using h
    simp [Delegate.removeCallable, List.erase_of_not_mem h2]
  · have hx : ∀ x ∈ d.callable_ptrs.reverse, x ≠ f := by
      intro x hxm hxf
      exact h (hxf ▸ (List.mem_reverse.mp hxm))
    unfold Delegate.removeCallableP0
    cases hrev : d.callable_ptrs.reverse with
    | nil => rfl
    | cons x rest =>
      have hne : x ≠ f := hx x (by rw [hrev]; exact List.mem_cons_self x rest)
      simp [hne]

/-- Witness for C8 at the registry [1, 2] and the absent pointer 5. -/
theorem remove_absent_is_noop_witness :
    (5 : CallablePtr) ∉ (Delegate.mk [1, 2]).callable_ptrs
    ∧ ((Delegate.mk [1, 2]).removeCallable 5 = ⟨[1, 2]⟩
        ∧ (Delegate.mk [1, 2]).removeCallableP0 5 = ⟨[1, 2]⟩) :=
  ⟨by decide, remove_absent_is_noop ⟨[1, 2]⟩ 5 (by decide)⟩

/-- C9.  The call operator and the explicit Execute are observationally
equivalent on every registry, argument and state: the value-collecting
variant (hpp lines 109-112) and the void specialization (hpp lines
181-184) forward directly, and the raw-pointer variant (hpp lines
332-340), though it duplicates the loop textually, computes the same
result and the same sequence of calls and effects. -/
theorem callOp_matches_execute {α β σ : Type} (env : CallablePtr → α → σ → β × σ)
    (envv : CallablePtr → α → σ → σ) (d : Delegate) (x : α) (r0 : β) (s : σ) :
    d.callOp env x s = d.Execute env x s
    ∧ d.callOpVoid envv x s = d.ExecuteVoid envv x s
    ∧ d.callOpLast env x r0 s = d.ExecuteLast env x r0 s :=
  ⟨rfl, rfl, runCallsLastDup_eq_runCallsLast env d.callable_ptrs x r0 s⟩

/-- C10.  Provided no listener re-enters the registry (the heap env acts
only on the external state, never on the member vector, matching the code,
where re-entry would deadlock on the held mutex), every invocation entry
point leaves the member state callable_ptrs unchanged, for the
value-collecting, void and raw-pointer variants alike, while performing
exactly one call per current entry in insertion order. -/
theorem invoke_preserves_entries {α β σ : Type} (fn : CallablePtr → α → β)
    (envv : CallablePtr → α → σ → σ) (d : Delegate) (x : α) (r0 : β) (s : σ) :
    (Delegate.ExecuteFull (logEnv fn) d x []).2 = d
    ∧ (Delegate.ExecuteFull (logEnv fn) d x []).1.2 = d.callable_ptrs
    ∧ (Delegate.ExecuteVoidFull envv d x s).2 = d
    ∧ (Delegate.ExecuteLastFull (logEnv fn) d x r0 []).2 = d
    ∧ (Delegate.callOpFull (logEnv fn) d x []).2 = d
    ∧ (Delegate.callOpVoidFull envv d x s).2 = d := by
  refine ⟨rfl, ?_, rfl, rfl, rfl, rfl⟩
  have h1 := runCalls_logEnv fn d.callable_ptrs x []
  simp only [Delegate.ExecuteFull, Delegate.Execute, h1, List.nil_append]
